import Mathlib

/-!
A verification development for a terminal SQL client. The embedding follows
the program's Rust sources: `commands.rs` (slash-command parsing and SQL
generation), `db/query.rs` (result assembly and typed-value decoding, with
the civil-calendar conversion `days_to_ymd`), `app.rs` (session state,
object-tree flatten/toggle, history) and `tui/mod.rs` (the key handler's
statement-submission path). Machine integers are modelled as `Nat`/`Int`
(the values involved never overflow their Rust types), strings as `String`
or `List Char`, and fallible execution as `Except`.
-/

namespace Meow

/-! ### String helpers shared by the embedding

Rust's `char::is_whitespace` tests the Unicode White_Space property; the
code points carrying it are enumerated here. `str::trim` drops such
characters from both ends. -/

/-- The Unicode White_Space code points, as Rust's `char::is_whitespace`. -/
def rust_is_whitespace (c : Char) : Bool :=
  [(0x9 : Nat), 0xA, 0xB, 0xC, 0xD, 0x20, 0x85, 0xA0, 0x1680,
    0x2000, 0x2001, 0x2002, 0x2003, 0x2004, 0x2005, 0x2006, 0x2007,
    0x2008, 0x2009, 0x200A, 0x2028, 0x2029, 0x202F, 0x205F, 0x3000].contains c.toNat

/-- Rust `str::trim` on a character list: drop whitespace from both ends. -/
def rust_trim (l : List Char) : List Char :=
  ((l.dropWhile rust_is_whitespace).reverse.dropWhile rust_is_whitespace).reverse

/-- Rust `str::replace('\'', "''")`: double every single quote. -/
def escape_quotes (l : List Char) : List Char :=
  l.flatMap fun c => if c = '\'' then ['\'', '\''] else [c]

/-- Whether `needle` occurs as a contiguous substring of `hay`. -/
def contains_sub (hay needle : List Char) : Bool :=
  (List.range (hay.length + 1)).any fun i =>
    (hay.drop i).take needle.length = needle

/-! ### Command Interpreter (`commands.rs`)

`SlashCommand` and `CommandAction` mirror the Rust enums; `parse` and
`to_action` are direct translations of `commands.rs` lines 55-146. -/

/-- Parsed slash command (`commands.rs` `SlashCommand`). -/
inductive SlashCommand where
  | listAll
  | describe (table : String)
  | listTables
  | listViews
  | listIndexes
  | listFunctions
  | listSchemas
  | listDatabases
  | useDatabase (db : String)
  | connInfo
  | toggleExpanded
  | toggleTiming
  | help
  | quit
deriving DecidableEq, Repr

/-- Result of handling a slash command (`commands.rs` `CommandAction`). -/
inductive CommandAction where
  | executeSql (sql : String)
  | displayMessage (columns : List String) (rows : List (List String))
  | toggleExpanded
  | toggleTiming
  | quit
deriving DecidableEq, Repr

/-- The second half of `parse`: dispatch on the command token and the
optional trimmed argument (`commands.rs` lines 65-83). -/
def parse_dispatch (cmd : List Char) (arg : Option (List Char)) : Option SlashCommand :=
  if cmd = "\\d".toList then
    match arg with
    | some table => some (.describe (String.mk table))
    | none => some .listAll
  else if cmd = "\\dt".toList then some .listTables
  else if cmd = "\\dv".toList then some .listViews
  else if cmd = "\\di".toList then some .listIndexes
  else if cmd = "\\df".toList then some .listFunctions
  else if cmd = "\\ds".toList then some .listSchemas
  else if cmd = "\\dn".toList then some .listDatabases
  else if cmd = "\\c".toList then arg.map fun db => .useDatabase (String.mk db)
  else if cmd = "\\conninfo".toList then some .connInfo
  else if cmd = "\\x".toList then some .toggleExpanded
  else if cmd = "\\timing".toList then some .toggleTiming
  else if cmd = "\\?".toList then some .help
  else if cmd = "\\q".toList then some .quit
  else none

/-- `commands::parse`: trim the input; a line not starting with a backslash
is not a command; otherwise split at the first whitespace character
(Rust `splitn(2, char::is_whitespace)`) into the command token and the
remainder, trim the remainder and keep it only when non-empty. -/
def parse (input : String) : Option SlashCommand :=
  let trimmed := rust_trim input.toList
  if trimmed.head? = some '\\' then
    let (cmd, rest) :=
      match trimmed.findIdx? (fun c => rust_is_whitespace c) with
      | none => (trimmed, none)
      | some i => (trimmed.take i, some (trimmed.drop (i + 1)))
    let arg := (rest.map rust_trim).filter fun s => !s.isEmpty
    parse_dispatch cmd arg
  else
    none

/-- `commands::to_action` (`commands.rs` lines 87-146): map a parsed command
to a SQL string or a direct UI action. The argument of `describe` is
embedded with single quotes doubled; the argument of `useDatabase` is
embedded verbatim. -/
def to_action (cmd : SlashCommand) (conn_info database user : String) : CommandAction :=
  match cmd with
  | .listAll => .executeSql "SELECT TABLE_SCHEMA, TABLE_NAME, TABLE_TYPE FROM INFORMATION_SCHEMA.TABLES ORDER BY TABLE_SCHEMA, TABLE_NAME"
  | .describe table => .executeSql
      ("SELECT COLUMN_NAME, DATA_TYPE, CHARACTER_MAXIMUM_LENGTH, IS_NULLABLE, COLUMN_DEFAULT FROM INFORMATION_SCHEMA.COLUMNS WHERE TABLE_NAME = '"
        ++ String.mk (escape_quotes table.toList)
        ++ "' ORDER BY ORDINAL_POSITION")
  | .listTables => .executeSql "SELECT TABLE_SCHEMA, TABLE_NAME, TABLE_TYPE FROM INFORMATION_SCHEMA.TABLES WHERE TABLE_TYPE = 'BASE TABLE' ORDER BY TABLE_SCHEMA, TABLE_NAME"
  | .listViews => .executeSql "SELECT TABLE_SCHEMA, TABLE_NAME, TABLE_TYPE FROM INFORMATION_SCHEMA.TABLES WHERE TABLE_TYPE = 'VIEW' ORDER BY TABLE_SCHEMA, TABLE_NAME"
  | .listIndexes => .executeSql "SELECT t.name AS table_name, i.name AS index_name, i.type_desc, i.is_unique, i.is_primary_key FROM sys.indexes i JOIN sys.tables t ON i.object_id = t.object_id WHERE i.name IS NOT NULL ORDER BY t.name, i.name"
  | .listFunctions => .executeSql "SELECT ROUTINE_SCHEMA, ROUTINE_NAME, ROUTINE_TYPE FROM INFORMATION_SCHEMA.ROUTINES ORDER BY ROUTINE_SCHEMA, ROUTINE_NAME"
  | .listSchemas => .executeSql "SELECT schema_id, name FROM sys.schemas WHERE principal_id = 1 ORDER BY name"
  | .listDatabases => .executeSql "SELECT name, state_desc, recovery_model_desc FROM sys.databases ORDER BY name"
  | .useDatabase db => .executeSql ("USE " ++ db)
  | .connInfo => .displayMessage ["Property", "Value"]
      [["Server", conn_info], ["Database", database], ["User", user]]
  | .toggleExpanded => .toggleExpanded
  | .toggleTiming => .toggleTiming
  | .help => .displayMessage ["Command", "Description"]
      [["\\d", "List all tables and views"],
       ["\\d <table>", "Describe table columns"],
       ["\\dt", "List tables only"],
       ["\\dv", "List views only"],
       ["\\di", "List indexes"],
       ["\\df", "List procedures and functions"],
       ["\\ds", "List schemas"],
       ["\\dn", "List databases"],
       ["\\c <db>", "Switch database"],
       ["\\conninfo", "Show connection info"],
       ["\\x", "Toggle expanded display"],
       ["\\timing", "Toggle query timing display"],
       ["\\?", "Show this help"],
       ["\\q", "Quit"]]
  | .quit => .quit

/-! ### Value Decoder (`db/query.rs`)

Rust formats integers with `to_string` and pads fields with `{:02}`-style
width specifiers; `pad_nat`/`pad_int` reproduce that zero-padding (the sign
counts toward the width, and a longer number is never truncated). -/

/-- Rust `format!` with a `{:0w}` specifier on an unsigned value. -/
def pad_nat (width n : Nat) : String :=
  String.mk (List.replicate (width - (Nat.repr n).length) '0' ++ (Nat.repr n).toList)

/-- Rust `format!` with a `{:0w}` specifier on a signed value: the minus
sign counts toward the width, zeros pad after the sign. -/
def pad_int (width : Nat) (z : Int) : String :=
  if z < 0 then
    String.mk ('-' :: (List.replicate (width - 1 - (Nat.repr z.natAbs).length) '0'
      ++ (Nat.repr z.natAbs).toList))
  else pad_nat width z.toNat

/-- One uppercase hexadecimal digit. -/
def hex_digit (n : Nat) : Char :=
  if n < 10 then Char.ofNat (48 + n) else Char.ofNat (55 + n)

/-- `hex_encode` from `db/query.rs` lines 218-220: two uppercase hex digits
per byte, no separators. -/
def hex_encode (bytes : List Nat) : String :=
  String.mk (bytes.flatMap fun b => [hex_digit (b / 16), hex_digit (b % 16)])

/-- `days_to_ymd` from `db/query.rs` lines 199-215: days since the Unix
epoch to a proleptic Gregorian (year, month, day) by Howard Hinnant's
civil-calendar algorithm. Rust's `/` on `i64` truncates toward zero, so it
is modelled by `Int.tdiv`; the `as u64` cast is `Int.toNat` (the operand
`z - era * 146097` is provably in `[0, 146096]`, so no wrap occurs). -/
def days_to_ymd (z0 : Int) : Int × Nat × Nat :=
  let z := z0 + 719468
  let era : Int := if 0 ≤ z then Int.tdiv z 146097 else Int.tdiv (z - 146096) 146097
  let doe : Nat := (z - era * 146097).toNat
  let yoe : Nat := (doe - doe / 1460 + doe / 36524 - doe / 146096) / 365
  let y : Int := (yoe : Int) + era * 400
  let doy : Nat := doe - (365 * yoe + yoe / 4 - yoe / 100)
  let mp : Nat := (5 * doy + 2) / 153
  let d : Nat := doy - (153 * mp + 2) / 5 + 1
  let m : Nat := if mp < 10 then mp + 3 else mp - 9
  (if m ≤ 2 then y + 1 else y, m, d)

/-- The civil-calendar conversion exactly as §4.1 of the spec words it:
shift the epoch to March 1 of year 0, compute the 400-year era as a floor
division by 146097, year-of-era and day-of-year via the integer divisions
by 1460/36524/146096, month and day via `(5*doy+2)/153`. It differs from
`days_to_ymd` only in writing the era directly as a floor division
(`Int` division in Lean floors for a positive divisor). -/
def civil_from_days (z0 : Int) : Int × Nat × Nat :=
  let z := z0 + 719468
  let era : Int := z / 146097
  let doe : Nat := (z - era * 146097).toNat
  let yoe : Nat := (doe - doe / 1460 + doe / 36524 - doe / 146096) / 365
  let y : Int := (yoe : Int) + era * 400
  let doy : Nat := doe - (365 * yoe + yoe / 4 - yoe / 100)
  let mp : Nat := (5 * doy + 2) / 153
  let d : Nat := doy - (153 * mp + 2) / 5 + 1
  let m : Nat := if mp < 10 then mp + 3 else mp - 9
  (if m ≤ 2 then y + 1 else y, m, d)

/-- A typed wire value, mirroring the driver's `SqlValue` variants that
`format_sql_value` decodes. `F32`/`F64`/`Numeric`/`Guid`/`Xml` and the
generic debug fallback are omitted: their text forms come from IEEE-754
formatting or external `Display` implementations and are outside this
embedding. `dateTime` carries (days since 1900-01-01, 1/300-second ticks);
`smallDateTime` the same with smaller widths; `date` days since year 1;
`time` (increments, scale); `dateTime2` (days, increments, scale);
`dateTimeOffset` adds the offset in signed minutes. -/
inductive SqlValue where
  | u8 (v : Option Nat)
  | i16 (v : Option Int)
  | i32 (v : Option Int)
  | i64 (v : Option Int)
  | bit (v : Option Bool)
  | str (v : Option String)
  | binary (v : Option (List Nat))
  | dateTime (v : Option (Int × Nat))
  | smallDateTime (v : Option (Nat × Nat))
  | date (v : Option Nat)
  | time (v : Option (Nat × Nat))
  | dateTime2 (v : Option (Nat × Nat × Nat))
  | dateTimeOffset (v : Option (Nat × Nat × Nat × Int))
deriving DecidableEq, Repr

/-- `format_sql_value` from `db/query.rs` lines 68-195. The temporal
variants compute hours/minutes/seconds in the source through `f64`
(`fragments as f64 / 300.0`, then divisions and truncating casts); for
every tick count in the wire range (below 300 * 86400) the `f64`
computation returns exactly the integer quotients written here
(`fragments / 1080000` and friends), because the quantities are an
absolute distance below 2^-20 from the exact rationals, which are
themselves at least 1/300 away from the next integer unless exact. The
`time` nanosecond computation is exact in `f64` for scales 0-7, giving
the integer arithmetic below. -/
def format_sql_value (val : SqlValue) : String :=
  match val with
  | .u8 (some n) => Nat.repr n
  | .u8 none => "NULL"
  | .i16 (some n) => toString n
  | .i16 none => "NULL"
  | .i32 (some n) => toString n
  | .i32 none => "NULL"
  | .i64 (some n) => toString n
  | .i64 none => "NULL"
  | .bit (some b) => toString b
  | .bit none => "NULL"
  | .str (some s) => s
  | .str none => "NULL"
  | .binary (some b) => "0x" ++ hex_encode b
  | .binary none => "NULL"
  | .dateTime (some (days, fragments)) =>
      let unix_days : Int := -25567 + days
      let ymd := days_to_ymd unix_days
      let hours := fragments / 1080000
      let mins := fragments % 1080000 / 18000
      let secs := fragments % 18000 / 300
      pad_int 4 ymd.1 ++ "-" ++ pad_nat 2 ymd.2.1 ++ "-" ++ pad_nat 2 ymd.2.2
        ++ " " ++ pad_nat 2 hours ++ ":" ++ pad_nat 2 mins ++ ":" ++ pad_nat 2 secs
  | .dateTime none => "NULL"
  | .smallDateTime (some (days, fragments)) =>
      let unix_days : Int := -25567 + (days : Int)
      let ymd := days_to_ymd unix_days
      let hours := fragments / 1080000
      let mins := fragments % 1080000 / 18000
      pad_int 4 ymd.1 ++ "-" ++ pad_nat 2 ymd.2.1 ++ "-" ++ pad_nat 2 ymd.2.2
        ++ " " ++ pad_nat 2 hours ++ ":" ++ pad_nat 2 mins
  | .smallDateTime none => "NULL"
  | .date (some days) =>
      let ymd := days_to_ymd ((days : Int) - 719163)
      pad_int 4 ymd.1 ++ "-" ++ pad_nat 2 ymd.2.1 ++ "-" ++ pad_nat 2 ymd.2.2
  | .date none => "NULL"
  | .time (some (increments, scale)) =>
      let nanos := increments * 10 ^ (9 - scale)
      let total_secs := nanos / 1000000000
      let hours := total_secs / 3600
      let mins := total_secs % 3600 / 60
      let secs := total_secs % 60
      let frac := nanos % 1000000000
      if frac > 0 then
        pad_nat 2 hours ++ ":" ++ pad_nat 2 mins ++ ":" ++ pad_nat 2 secs
          ++ "." ++ pad_nat 7 (frac / 100)
      else
        pad_nat 2 hours ++ ":" ++ pad_nat 2 mins ++ ":" ++ pad_nat 2 secs
  | .time none => "NULL"
  | .dateTime2 (some (days, increments, scale)) =>
      let ymd := days_to_ymd ((days : Int) - 719163)
      let nanos := increments * 10 ^ (9 - scale)
      let total_secs := nanos / 1000000000
      let hours := total_secs / 3600
      let mins := total_secs % 3600 / 60
      let secs := total_secs % 60
      let frac := nanos % 1000000000
      if frac > 0 then
        pad_int 4 ymd.1 ++ "-" ++ pad_nat 2 ymd.2.1 ++ "-" ++ pad_nat 2 ymd.2.2
          ++ " " ++ pad_nat 2 hours ++ ":" ++ pad_nat 2 mins ++ ":" ++ pad_nat 2 secs
          ++ "." ++ pad_nat 7 (frac / 100)
      else
        pad_int 4 ymd.1 ++ "-" ++ pad_nat 2 ymd.2.1 ++ "-" ++ pad_nat 2 ymd.2.2
          ++ " " ++ pad_nat 2 hours ++ ":" ++ pad_nat 2 mins ++ ":" ++ pad_nat 2 secs
  | .dateTime2 none => "NULL"
  | .dateTimeOffset (some (days, increments, scale, offset_mins)) =>
      let ymd := days_to_ymd ((days : Int) - 719163)
      let nanos := increments * 10 ^ (9 - scale)
      let total_secs := nanos / 1000000000
      let hours := total_secs / 3600
      let mins := total_secs % 3600 / 60
      let secs := total_secs % 60
      let sign := if 0 ≤ offset_mins then "+" else "-"
      let abs_offset := offset_mins.natAbs
      pad_int 4 ymd.1 ++ "-" ++ pad_nat 2 ymd.2.1 ++ "-" ++ pad_nat 2 ymd.2.2
        ++ " " ++ pad_nat 2 hours ++ ":" ++ pad_nat 2 mins ++ ":" ++ pad_nat 2 secs
        ++ " " ++ sign ++ pad_nat 2 (abs_offset / 60) ++ ":" ++ pad_nat 2 (abs_offset % 60)
  | .dateTimeOffset none => "NULL"

/-! ### Result Assembler (`db/query.rs` `execute_query`, lines 22-56)

The stream loop keeps an accumulating buffer of current columns and rows;
`asm_step` is one iteration of the `while let` loop, `asm_finish` the
trailing seal after the stream ends. `elapsed_ms` is wall-clock time
measured around the whole loop and is external to this model; the
submission model below (`run_sql_outcome`) takes the finished
`QueryResult` as a parameter. -/

/-- One result set (`app.rs` `ResultSet`). -/
structure ResultSet where
  columns : List String
  rows : List (List String)
deriving DecidableEq, Repr

/-- Full outcome of one executed statement batch (`app.rs` `QueryResult`). -/
structure QueryResult where
  result_sets : List ResultSet
  elapsed_ms : Nat
  error : Option String
deriving DecidableEq, Repr

/-- One protocol event of the result stream (the driver's `ResultItem`):
a column-metadata announcement, a row (carrying its own column descriptors
and typed values), or an informational message. -/
inductive ResultItem where
  | metadata (columns : List String)
  | row (row_columns : List String) (values : List SqlValue)
  | message (text : String)

/-- The assembler's accumulating state: sealed result sets plus the
current-columns/current-rows buffer. -/
structure AsmState where
  result_sets : List ResultSet
  current_columns : List String
  current_rows : List (List String)
deriving DecidableEq, Repr

/-- One iteration of `execute_query`'s event loop (`db/query.rs` lines
22-48): metadata seals a non-empty buffer and installs the new columns;
a row derives columns from its own descriptors when none were announced,
decodes every cell with `format_sql_value` and appends; messages are
skipped. -/
def asm_step (st : AsmState) (item : ResultItem) : AsmState :=
  match item with
  | .metadata cols =>
      if !st.current_columns.isEmpty || !st.current_rows.isEmpty then
        { result_sets := st.result_sets ++ [⟨st.current_columns, st.current_rows⟩],
          current_columns := cols, current_rows := [] }
      else
        { st with current_columns := cols }
  | .row row_cols vals =>
      let cc := if st.current_columns.isEmpty then row_cols else st.current_columns
      { st with current_columns := cc,
                current_rows := st.current_rows ++ [vals.map format_sql_value] }
  | .message _ => st

/-- The trailing seal after the stream ends (`db/query.rs` lines 51-56). -/
def asm_finish (st : AsmState) : List ResultSet :=
  if !st.current_columns.isEmpty || !st.current_rows.isEmpty then
    st.result_sets ++ [⟨st.current_columns, st.current_rows⟩]
  else
    st.result_sets

/-- `execute_query`'s `result_sets` as a function of the consumed event
sequence. -/
def execute_query_sets (events : List ResultItem) : List ResultSet :=
  asm_finish (events.foldl asm_step ⟨[], [], []⟩)

/-! ### Object Tree Model (`app.rs`)

`ObjectNode` is the sidebar tree node. `flatten_tree` is the source's
depth-first, expansion-aware linearization (lines 355-373);
`get_flat_node_toggle` models `get_flat_node_mut_inner` (lines 330-352)
composed with the caller `toggle_sidebar_node` (lines 312-316): finding the
node at the flat index and flipping its `expanded` flag through the
returned mutable reference is modelled as returning the updated forest,
together with the advanced traversal counter and a found flag.

`path_at` / `node_at` / `modify_at` / `entry_of` are specification-side
helpers used to state what toggling does: a path is the list of child
indices from the forest root to a node, `modify_at` flips the `expanded`
flag at exactly that path and touches nothing else. -/

/-- A node in the object browser tree (`app.rs` `ObjectNode`). -/
inductive ObjectNode where
  | mk (name : String) (depth : Nat) (expanded : Bool) (children : List ObjectNode)

/-- Display label. -/
def ObjectNode.name : ObjectNode → String
  | .mk nm _ _ _ => nm

/-- Depth in the tree (0 = database, 1 = schema, 2 = table). -/
def ObjectNode.depth : ObjectNode → Nat
  | .mk _ d _ _ => d

/-- Whether this node is expanded. -/
def ObjectNode.expanded : ObjectNode → Bool
  | .mk _ _ e _ => e

/-- Children (lazy-loaded). -/
def ObjectNode.children : ObjectNode → List ObjectNode
  | .mk _ _ _ c => c

/-- Negate a node's `expanded` flag, keeping every other field. -/
def flip_expanded : ObjectNode → ObjectNode
  | .mk nm d e c => .mk nm d (!e) c

/-- `flatten_tree` from `app.rs` lines 355-373: one `(depth, name,
expanded, has_children)` entry per visible node, in document order. -/
def flatten_tree : List ObjectNode → List (Nat × String × Bool × Bool)
  | [] => []
  | .mk nm d e c :: rest =>
      (d, nm, e, !c.isEmpty) :: ((if e then flatten_tree c else []) ++ flatten_tree rest)

/-- `get_flat_node_mut_inner` (`app.rs` lines 335-352) with the caller's
flip applied at the found node: returns the updated forest, the advanced
counter and whether the target index was reached. -/
def get_flat_node_toggle : List ObjectNode → Nat → Nat → List ObjectNode × Nat × Bool
  | [], _, idx => ([], idx, false)
  | .mk nm d e c :: rest, target, idx =>
      if idx = target then (.mk nm d (!e) c :: rest, idx, true)
      else
        let r1 := if e then get_flat_node_toggle c target (idx + 1) else (c, idx + 1, false)
        if r1.2.2 then (.mk nm d e r1.1 :: rest, r1.2.1, true)
        else
          let r2 := get_flat_node_toggle rest target r1.2.1
          (.mk nm d e c :: r2.1, r2.2.1, r2.2.2)

/-- `App::toggle_sidebar_node` (`app.rs` lines 312-316) on the tree: flip
the `expanded` flag of the node at flat index `sidebar_scroll`; no node is
touched when the index is out of range. -/
def toggle_sidebar_node (nodes : List ObjectNode) (sidebar_scroll : Nat) : List ObjectNode :=
  (get_flat_node_toggle nodes sidebar_scroll 0).1

/-- The flatten entry a node describes. -/
def entry_of (n : ObjectNode) : Nat × String × Bool × Bool :=
  (n.depth, n.name, n.expanded, !n.children.isEmpty)

/-- Increment the leading index of a path (shifting past one sibling). -/
def bump_head : List Nat → List Nat
  | [] => []
  | j :: q => (j + 1) :: q

/-- The path (list of child indices) of the `k`-th entry of
`flatten_tree`. -/
def path_at : List ObjectNode → Nat → Option (List Nat)
  | [], _ => none
  | .mk _ _ e c :: rest, k =>
      if k = 0 then some [0]
      else
        let cl := if e then (flatten_tree c).length else 0
        if k - 1 < cl then (path_at c (k - 1)).map fun p => 0 :: p
        else (path_at rest (k - 1 - cl)).map bump_head

/-- A node's children are structurally smaller than the node. -/
theorem sizeOf_children_lt (n : ObjectNode) : sizeOf n.children < sizeOf n := by
  cases n with
  | mk nm d e c =>
    simp only [ObjectNode.children, ObjectNode.mk.sizeOf_spec]
    omega

/-- The node a path points to. -/
def node_at : List ObjectNode → List Nat → Option ObjectNode
  | _, [] => none
  | [], _ :: _ => none
  | n :: _, 0 :: q => if q.isEmpty then some n else node_at n.children q
  | _ :: rest, (j + 1) :: q => node_at rest (j :: q)
termination_by ns _ => sizeOf ns
decreasing_by
  · have h := sizeOf_children_lt n
    simp only [List.cons.sizeOf_spec]
    omega
  · simp only [List.cons.sizeOf_spec]
    omega

/-- Flip the `expanded` flag of the node at the given path, leaving every
other node and the whole tree shape unchanged. -/
def modify_at : List ObjectNode → List Nat → List ObjectNode
  | ns, [] => ns
  | [], _ :: _ => []
  | n :: rest, 0 :: q =>
      (if q.isEmpty then flip_expanded n
       else .mk n.name n.depth n.expanded (modify_at n.children q)) :: rest
  | n :: rest, (j + 1) :: q => n :: modify_at rest (j :: q)
termination_by ns _ => sizeOf ns
decreasing_by
  · have h := sizeOf_children_lt n
    simp only [List.cons.sizeOf_spec]
    omega
  · simp only [List.cons.sizeOf_spec]
    omega

/-- The shallow fields of a node: everything but its subtree. -/
def shallow_of (n : ObjectNode) : String × Nat × Bool :=
  (n.name, n.depth, n.expanded)

/-! ### Session State Machine (`app.rs` `App`, `tui/mod.rs` `handle_key`)

`App` carries the session fields of `app.rs` lines 91-132. The editor
(`tui_textarea::TextArea`) is modelled by its list of lines, matching
`get_editor_text` (join with newline) and `set_editor_text` (split into
lines, with `[""]` for empty text); the autocomplete sub-state is an
independent component no claim touches and is omitted. -/

/-- Which pane currently has focus (`app.rs` `FocusPane`). -/
inductive FocusPane where
  | editor
  | results
  | sidebar
deriving DecidableEq, Repr

/-- Rust `str::lines` on a `String`: split at newline characters, strip one
trailing carriage return from every piece that was terminated by a newline,
and drop a final empty piece. -/
def split_newlines : List Char → List (List Char)
  | [] => [[]]
  | c :: rest =>
      if c = '\n' then [] :: split_newlines rest
      else
        match split_newlines rest with
        | [] => [[c]]
        | l :: ls => (c :: l) :: ls

/-- Drop one trailing carriage return. -/
def strip_trailing_cr (l : List Char) : List Char :=
  match l.getLast? with
  | some c => if c = '\r' then l.dropLast else l
  | none => l

/-- Rust `str::lines` collected into a list (see `split_newlines`). -/
def rust_lines (s : String) : List String :=
  let pieces := split_newlines s.toList
  let init := pieces.dropLast.map strip_trailing_cr
  let last := (pieces.getLast?.getD [])
  (if last.isEmpty then init else init ++ [last]).map fun l => String.mk l

/-- The main application state (`app.rs` `App`). -/
structure App where
  focus : FocusPane
  sidebar_visible : Bool
  editor : List String
  result : QueryResult
  objects : List ObjectNode
  result_scroll : Nat
  result_col_scroll : Nat
  sidebar_scroll : Nat
  connection_info : String
  current_database : String
  should_quit : Bool
  query_running : Bool
  history : List String
  history_index : Option Nat
  show_help : Bool
  current_result_set : Nat
  expanded_mode : Bool
  show_timing : Bool
  user : String

/-- `QueryResult::rows_for` (`app.rs` lines 60-65). -/
def QueryResult.rows_for (q : QueryResult) (index : Nat) : List (List String) :=
  ((q.result_sets.get? index).map ResultSet.rows).getD []

/-- `QueryResult::columns_for` (`app.rs` lines 68-73). -/
def QueryResult.columns_for (q : QueryResult) (index : Nat) : List String :=
  ((q.result_sets.get? index).map ResultSet.columns).getD []

/-- `App::new` (`app.rs` lines 136-165). -/
def App.new (host : String) (port : Nat) (database user : String) : App :=
  { focus := .editor
    sidebar_visible := true
    editor := [""]
    result := ⟨[], 0, none⟩
    objects := []
    result_scroll := 0
    result_col_scroll := 0
    sidebar_scroll := 0
    connection_info := host ++ ":" ++ Nat.repr port
    current_database := database
    should_quit := false
    query_running := false
    history := []
    history_index := none
    show_help := false
    current_result_set := 0
    expanded_mode := false
    show_timing := false
    user := user }

/-- `App::get_editor_text`: join the editor lines with newlines. -/
def get_editor_text (a : App) : String :=
  String.intercalate "\n" a.editor

/-- `App::clear_editor`: a default text area holds one empty line. -/
def clear_editor (a : App) : App :=
  { a with editor := [""] }

/-- `App::set_editor_text` (`app.rs` lines 242-255). -/
def set_editor_text (a : App) (text : String) : App :=
  let lines := rust_lines text
  { a with editor := if lines.isEmpty then [""] else lines }

/-- `App::push_history` (`app.rs` lines 206-212). -/
def push_history (a : App) : App :=
  let text := get_editor_text a
  { a with
    history := if (rust_trim text.toList).isEmpty then a.history else a.history ++ [text]
    history_index := none }

/-- `App::history_prev` (`app.rs` lines 215-225): from the live buffer jump
to the newest entry; otherwise step one older, clamped at index 0. -/
def history_prev (a : App) : App :=
  if a.history.isEmpty then a
  else
    let idx := match a.history_index with
      | none => a.history.length - 1
      | some i => i - 1
    set_editor_text { a with history_index := some idx } (a.history.getD idx "")

/-- `App::history_next` (`app.rs` lines 228-239): step one newer; past the
newest entry reset the cursor to live and clear the buffer. -/
def history_next (a : App) : App :=
  match a.history_index with
  | some idx =>
      if idx + 1 < a.history.length then
        set_editor_text { a with history_index := some (idx + 1) } (a.history.getD (idx + 1) "")
      else
        clear_editor { a with history_index := none }
  | none => a

/-- `App::scroll_results_down` (`app.rs` lines 258-263). -/
def scroll_results_down (a : App) : App :=
  if a.result_scroll + 1 < (a.result.rows_for a.current_result_set).length then
    { a with result_scroll := a.result_scroll + 1 }
  else a

/-- `App::scroll_results_up`. -/
def scroll_results_up (a : App) : App :=
  { a with result_scroll := a.result_scroll - 1 }

/-- `App::scroll_results_right` (`app.rs` lines 271-276). -/
def scroll_results_right (a : App) : App :=
  let col_count := (a.result.columns_for a.current_result_set).length
  if col_count > 0 && a.result_col_scroll + 1 < col_count then
    { a with result_col_scroll := a.result_col_scroll + 1 }
  else a

/-- `App::scroll_results_left`. -/
def scroll_results_left (a : App) : App :=
  { a with result_col_scroll := a.result_col_scroll - 1 }

/-- `App::scroll_sidebar_down`. -/
def scroll_sidebar_down (a : App) : App :=
  { a with sidebar_scroll := a.sidebar_scroll + 1 }

/-- `App::scroll_sidebar_up`. -/
def scroll_sidebar_up (a : App) : App :=
  { a with sidebar_scroll := a.sidebar_scroll - 1 }

/-- `App::next_result_set` (`app.rs` lines 294-300). -/
def next_result_set (a : App) : App :=
  if a.current_result_set + 1 < a.result.result_sets.length then
    { a with current_result_set := a.current_result_set + 1
             result_scroll := 0
             result_col_scroll := 0 }
  else a

/-- `App::prev_result_set` (`app.rs` lines 303-309). -/
def prev_result_set (a : App) : App :=
  if a.current_result_set > 0 then
    { a with current_result_set := a.current_result_set - 1
             result_scroll := 0
             result_col_scroll := 0 }
  else a

/-- The execute-and-store step shared by both submission branches of
`handle_key` (`tui/mod.rs` lines 126-144 and 179-193): set
`query_running`, install the outcome - success resets both result scroll
offsets, failure replaces the result with one carrying only the error
message (`QueryResult` default plus the error) - then clear
`query_running`. -/
def run_sql_outcome (a : App) (outcome : Except String QueryResult) : App :=
  let a1 := { a with query_running := true }
  let a2 := match outcome with
    | .ok result =>
        { a1 with result := result, result_scroll := 0, result_col_scroll := 0 }
    | .error e =>
        { a1 with result := { result_sets := [], elapsed_ms := 0, error := some e } }
  { a2 with query_running := false }

/-- The Ctrl+Enter / F5 submission handler (`tui/mod.rs` lines 112-197):
empty (after trimming) editor text does nothing; otherwise the text is
pushed to history and either dispatched as a slash command or executed as
plain SQL, with `outcome` standing for the external server response.
Returns the new state and whether the loop should exit. A successful
`UseDatabase` command additionally updates `current_database` (the source
does so just before storing the result; the two field updates commute).
The `DisplayMessage` / `ToggleExpanded` / `ToggleTiming` command branches
are left as the identity: in the source those branches construct
`QueryResult` with `columns` / `rows` fields that the struct does not have
(`tui/mod.rs` lines 146-175 do not compile against `app.rs`), and no
claim exercises them. -/
def submit_statement (a : App) (outcome : Except String QueryResult) : App × Bool :=
  let sql := get_editor_text a
  if (rust_trim sql.toList).isEmpty then (a, false)
  else
    let a1 := push_history a
    match parse sql with
    | some cmd =>
        match to_action cmd a1.connection_info a1.current_database a1.user with
        | .executeSql _ =>
            let a2 := match outcome, cmd with
              | .ok _, .useDatabase db => { a1 with current_database := db }
              | _, _ => a1
            (run_sql_outcome a2 outcome, false)
        | .quit => (a1, true)
        | _ => (a1, false)
    | none => (run_sql_outcome a1 outcome, false)

/-- One session operation of the kinds the invariant claim ranges over:
result-set navigation, results/sidebar scrolling, editing the statement
text, and statement submission. -/
inductive SessionOp where
  | nextSet
  | prevSet
  | resultsDown
  | resultsUp
  | resultsLeft
  | resultsRight
  | sidebarDown
  | sidebarUp
  | setEditor (text : String)
  | submit (outcome : Except String QueryResult)

/-- Whether an operation is a statement submission. -/
def SessionOp.is_submit : SessionOp → Bool
  | .submit _ => true
  | _ => false

/-- Dispatch one session operation to the corresponding `App` method. -/
def session_step (a : App) (op : SessionOp) : App :=
  match op with
  | .nextSet => next_result_set a
  | .prevSet => prev_result_set a
  | .resultsDown => scroll_results_down a
  | .resultsUp => scroll_results_up a
  | .resultsLeft => scroll_results_left a
  | .resultsRight => scroll_results_right a
  | .sidebarDown => scroll_sidebar_down a
  | .sidebarUp => scroll_sidebar_up a
  | .setEditor text => set_editor_text a text
  | .submit outcome => (submit_statement a outcome).1

/-- Run a sequence of session operations from a state. -/
def run_session (ops : List SessionOp) (a : App) : App :=
  ops.foldl session_step a

/-- The clamping property claimed for the current result-set index. -/
def result_index_clamped (a : App) : Prop :=
  a.result.result_sets ≠ [] → a.current_result_set < a.result.result_sets.length

instance (a : App) : Decidable (result_index_clamped a) := by
  unfold result_index_clamped
  infer_instance

/-! ### Demonstration values used by the theorems -/

/-- A tree with one collapsed depth-0 node having one depth-1 child. -/
def demo_tree : List ObjectNode :=
  [.mk "db" 0 false [.mk "schema" 1 false []]]

/-- A fresh session. -/
def demo_session : App :=
  App.new "localhost" 1433 "master" "sa"

/-- The session after submitting the statements "A", "B", "C" to history. -/
def demo_after_pushes : App :=
  push_history (set_editor_text
    (push_history (set_editor_text
      (push_history (set_editor_text demo_session "A")) "B")) "C")

/-! ### Theorems -/

/-- C7: the command parser recognizes only lines whose trimmed text starts
with a backslash, splits such a line at the first whitespace into a command
token and an optional trimmed argument, and on the spec's examples yields
list-all for a bare backslash-d, describe with the trimmed argument when
one follows, and no match for an argument-less backslash-c, for plain SQL
text and for an unknown token. -/
theorem parse_grammar_spec :
    (∀ s : String, (rust_trim s.toList).head? ≠ some '\\' → parse s = none) ∧
    parse "\\d" = some .listAll ∧
    parse "\\d foo" = some (.describe "foo") ∧
    parse "  \\d  bar  " = some (.describe "bar") ∧
    parse "\\c" = none ∧
    parse "SELECT 1" = none ∧
    parse "\\zzz" = none := by
  refine ⟨?_, by decide, by decide, by decide, by decide, by decide, by decide⟩
  intro s h
  unfold parse
  simp only [if_neg h]

/-- Witness for C7 at a concrete non-command input. -/
theorem parse_grammar_spec_witness : parse "hello" = none :=
  parse_grammar_spec.1 "hello" (by decide)

set_option maxRecDepth 20000 in
/-- C8: describing a table emits the schema-information query with every
single quote of the argument doubled - the emitted SQL is the fixed query
text around the quote-escaped argument, escaping exactly doubles the
number of quotes, and for the table name with an embedded quote the SQL
contains the doubled-quote literal. -/
theorem describe_escapes_quotes :
    (∀ table conn_info database user : String,
      to_action (.describe table) conn_info database user =
        .executeSql
          ("SELECT COLUMN_NAME, DATA_TYPE, CHARACTER_MAXIMUM_LENGTH, IS_NULLABLE, COLUMN_DEFAULT FROM INFORMATION_SCHEMA.COLUMNS WHERE TABLE_NAME = '"
            ++ String.mk (escape_quotes table.toList)
            ++ "' ORDER BY ORDINAL_POSITION")) ∧
    (∀ l : List Char, (escape_quotes l).count '\'' = 2 * l.count '\'') ∧
    (∃ sql : String, to_action (.describe "a'b") "" "" "" = .executeSql sql ∧
      contains_sub sql.toList "'a''b'".toList = true) := by
  refine ⟨fun _ _ _ _ => rfl, ?_, ?_⟩
  · intro l
    induction l with
    | nil => rfl
    | cons c rest ih =>
        simp only [escape_quotes, List.flatMap_cons] at *
        by_cases hc : c = '\''
        · subst hc
          simp [List.count_cons, ih]
          omega
        · simp [List.count_cons, hc, ih]
  · exact ⟨_, rfl, by decide⟩

/-- C10: the switch-database command maps to exactly the string USE
followed by the argument verbatim - no quote doubling or other escaping,
quote counts are preserved, and an argument with an embedded quote keeps
it unescaped. -/
theorem use_database_verbatim :
    (∀ db conn_info database user : String,
      to_action (.useDatabase db) conn_info database user = .executeSql ("USE " ++ db)) ∧
    (∀ db : String, ("USE " ++ db).toList.count '\'' = db.toList.count '\'') ∧
    (∃ sql : String, to_action (.useDatabase "a'b") "" "" "" = .executeSql sql ∧
      sql = "USE a'b" ∧ sql.toList.count '\'' = 1) := by
  refine ⟨fun _ _ _ _ => rfl, ?_, ⟨_, rfl, by decide, by decide⟩⟩
  intro db
  have h0 : List.count '\'' "USE ".toList = 0 := by decide
  simp only [String.toList, String.data_append, List.count_append] at *
  omega

/-- The era branch of `days_to_ymd` - truncating division with the source's
negative-operand adjustment - equals a single floor division. -/
theorem era_tdiv_eq (z : Int) :
    (if 0 ≤ z then Int.tdiv z 146097 else Int.tdiv (z - 146096) 146097) = z / 146097 := by
  by_cases h : 0 ≤ z
  · rw [if_pos h, Int.tdiv_eq_ediv h (by norm_num)]
  · rw [if_neg h]
    have h1 : z - 146096 = -(146096 - z) := by ring
    rw [h1, Int.neg_tdiv, Int.tdiv_eq_ediv (by omega) (by norm_num)]
    omega

/-- `days_to_ymd` computes exactly the spec's civil-calendar algorithm. -/
theorem days_to_ymd_eq_civil (z0 : Int) : days_to_ymd z0 = civil_from_days z0 := by
  simp only [days_to_ymd, civil_from_days, era_tdiv_eq]

/-- A `pad_nat` field of a value below `10 ^ width` has exactly `width`
characters. -/
theorem pad_nat_length (width n : Nat) (hw : 0 < width) (h : n < 10 ^ width) :
    (pad_nat width n).length = width := by
  have hlen : (Nat.repr n).length ≤ width := Nat.repr_length n width hw h
  simp only [pad_nat, String.length, List.length_append, List.length_replicate]
  simp only [String.length] at hlen
  simp only [String.toList]
  omega

/-- C4: decoding a non-null legacy datetime converts its day count (days
since 1900-01-01, shifted by -25567 to the Unix epoch) through the
spec's Hinnant civil-calendar algorithm and formats the result as
YYYY-MM-DD HH:MM:SS; day-count 0 with zero ticks decodes to
1900-01-01 00:00:00. -/
theorem legacy_datetime_civil :
    (∀ z : Int, days_to_ymd z = civil_from_days z) ∧
    (∀ (days : Int) (fragments : Nat),
      format_sql_value (.dateTime (some (days, fragments))) =
        (let ymd := civil_from_days (-25567 + days)
         pad_int 4 ymd.1 ++ "-" ++ pad_nat 2 ymd.2.1 ++ "-" ++ pad_nat 2 ymd.2.2
           ++ " " ++ pad_nat 2 (fragments / 1080000) ++ ":"
           ++ pad_nat 2 (fragments % 1080000 / 18000) ++ ":"
           ++ pad_nat 2 (fragments % 18000 / 300))) ∧
    format_sql_value (.dateTime (some (0, 0))) = "1900-01-01 00:00:00" := by
  refine ⟨days_to_ymd_eq_civil, ?_, by decide⟩
  intro days fragments
  simp only [format_sql_value, days_to_ymd_eq_civil]

/-- C5: decoding a non-null time value computes nanoseconds as
increments times 10 to the (9 - scale), derives hours, minutes and
seconds by integer division, and appends a 7-digit fractional suffix
exactly when the sub-second part is nonzero. -/
theorem time_decode_spec (increments scale : Nat) (_hs : scale ≤ 9) :
    (increments * 10 ^ (9 - scale) % 1000000000 = 0 →
      format_sql_value (.time (some (increments, scale))) =
        pad_nat 2 (increments * 10 ^ (9 - scale) / 1000000000 / 3600) ++ ":"
          ++ pad_nat 2 (increments * 10 ^ (9 - scale) / 1000000000 % 3600 / 60) ++ ":"
          ++ pad_nat 2 (increments * 10 ^ (9 - scale) / 1000000000 % 60)) ∧
    (increments * 10 ^ (9 - scale) % 1000000000 ≠ 0 →
      format_sql_value (.time (some (increments, scale))) =
        pad_nat 2 (increments * 10 ^ (9 - scale) / 1000000000 / 3600) ++ ":"
          ++ pad_nat 2 (increments * 10 ^ (9 - scale) / 1000000000 % 3600 / 60) ++ ":"
          ++ pad_nat 2 (increments * 10 ^ (9 - scale) / 1000000000 % 60)
          ++ "." ++ pad_nat 7 (increments * 10 ^ (9 - scale) % 1000000000 / 100) ∧
      (pad_nat 7 (increments * 10 ^ (9 - scale) % 1000000000 / 100)).length = 7) := by
  constructor
  · intro h0
    simp only [format_sql_value, h0]
    norm_num
  · intro h0
    constructor
    · simp only [format_sql_value]
      rw [if_pos (Nat.pos_of_ne_zero h0)]
    · apply pad_nat_length 7 _ (by norm_num)
      have h1 : increments * 10 ^ (9 - scale) % 1000000000 < 1000000000 :=
        Nat.mod_lt _ (by norm_num)
      omega

/-- Witness for C5 at scale 7 with a nonzero fraction. -/
theorem time_decode_spec_witness :
    format_sql_value (.time (some (123456789, 7))) = "00:00:12.3456789" := by
  have h := ((time_decode_spec 123456789 7 (by norm_num)).2 (by norm_num)).1
  rw [h]
  decide

/-- C2: the result assembler seals the accumulating buffer on a metadata
event exactly when the buffer already has columns or rows and then starts
a new buffer with the announced columns; message events are discarded; the
end of the stream seals a non-empty trailing buffer; the five-event
example yields two result sets with two rows and one row, and zero events
yield zero result sets. -/
theorem assembler_spec :
    (∀ (st : AsmState) (cols : List String),
      asm_step st (.metadata cols) =
        ⟨st.result_sets ++
          (if st.current_columns = [] ∧ st.current_rows = [] then []
           else [⟨st.current_columns, st.current_rows⟩]),
         cols, []⟩) ∧
    (∀ (st : AsmState) (text : String), asm_step st (.message text) = st) ∧
    (∀ st : AsmState,
      asm_finish st =
        st.result_sets ++
          (if st.current_columns = [] ∧ st.current_rows = [] then []
           else [⟨st.current_columns, st.current_rows⟩])) ∧
    execute_query_sets
        [.metadata ["a1", "a2"], .row [] [.i32 (some 1), .i32 (some 2)],
         .row [] [.i32 (some 3), .i32 (some 4)], .metadata ["b1"],
         .row [] [.str (some "x")]]
      = [⟨["a1", "a2"], [["1", "2"], ["3", "4"]]⟩, ⟨["b1"], [["x"]]⟩] ∧
    execute_query_sets [] = [] := by
  refine ⟨?_, fun _ _ => rfl, ?_, by decide, by decide⟩
  · rintro ⟨sets, cc, cr⟩ cols
    by_cases h1 : cc = [] <;> by_cases h2 : cr = [] <;>
      simp_all [asm_step]
  · rintro ⟨sets, cc, cr⟩
    by_cases h1 : cc = [] <;> by_cases h2 : cr = [] <;>
      simp_all [asm_finish]

/-- C6: when statement execution fails after a submitted statement - plain
SQL text, or a slash command that maps to a SQL string, covering both
error branches of the key handler - the session's result model is
replaced by a `QueryResult` holding only the error message (empty
`result_sets`), the running flag is cleared, the loop is told to
continue, and every other session field - focus, scroll offsets, sidebar
state, object tree, toggles, current database (in particular a failed
switch-database command does not change it), editor, and the history
apart from the submission's push - is unchanged. -/
theorem statement_failure_frame (a : App) (msg : String)
    (hne : (rust_trim (get_editor_text a).toList).isEmpty = false)
    (hsql : parse (get_editor_text a) = none ∨
      ∃ cmd sql, parse (get_editor_text a) = some cmd ∧
        to_action cmd a.connection_info a.current_database a.user = .executeSql sql) :
    (submit_statement a (.error msg)).2 = false ∧
    (submit_statement a (.error msg)).1.result = ⟨[], 0, some msg⟩ ∧
    (submit_statement a (.error msg)).1.query_running = false ∧
    (submit_statement a (.error msg)).1.focus = a.focus ∧
    (submit_statement a (.error msg)).1.sidebar_visible = a.sidebar_visible ∧
    (submit_statement a (.error msg)).1.editor = a.editor ∧
    (submit_statement a (.error msg)).1.objects = a.objects ∧
    (submit_statement a (.error msg)).1.result_scroll = a.result_scroll ∧
    (submit_statement a (.error msg)).1.result_col_scroll = a.result_col_scroll ∧
    (submit_statement a (.error msg)).1.sidebar_scroll = a.sidebar_scroll ∧
    (submit_statement a (.error msg)).1.connection_info = a.connection_info ∧
    (submit_statement a (.error msg)).1.current_database = a.current_database ∧
    (submit_statement a (.error msg)).1.should_quit = a.should_quit ∧
    (submit_statement a (.error msg)).1.history = (push_history a).history ∧
    (submit_statement a (.error msg)).1.history_index = none ∧
    (submit_statement a (.error msg)).1.show_help = a.show_help ∧
    (submit_statement a (.error msg)).1.current_result_set = a.current_result_set ∧
    (submit_statement a (.error msg)).1.expanded_mode = a.expanded_mode ∧
    (submit_statement a (.error msg)).1.show_timing = a.show_timing ∧
    (submit_statement a (.error msg)).1.user = a.user := by
  have hne2 : rust_trim (get_editor_text a).data ≠ [] := fun hc => by
    simp [String.toList, hc] at hne
  rcases hsql with hplain | ⟨cmd, sql, hcmd, hact⟩
  · simp [submit_statement, hne2, hplain, run_sql_outcome, push_history]
  · simp [submit_statement, hne2, hcmd, hact, run_sql_outcome, push_history]

/-- Witness for C6: a failed switch-database command leaves the session
untouched apart from the error result, its current database included. -/
theorem statement_failure_frame_witness :
    (submit_statement (set_editor_text demo_session "\\c otherdb") (.error "boom")).1.result
      = ⟨[], 0, some "boom"⟩ ∧
    (submit_statement (set_editor_text demo_session "\\c otherdb") (.error "boom")).1.current_database
      = (set_editor_text demo_session "\\c otherdb").current_database ∧
    (submit_statement (set_editor_text demo_session "\\c otherdb") (.error "boom")).2 = false := by
  have h := statement_failure_frame (set_editor_text demo_session "\\c otherdb") "boom"
    (by decide)
    (Or.inr ⟨.useDatabase "otherdb", "USE otherdb", by decide, by decide⟩)
  exact ⟨h.2.1, h.2.2.2.2.2.2.2.2.2.2.2.1, h.1⟩

/-- C9: pushing A, B, C then invoking previous three times yields editor
contents C, B, A, a fourth previous stays at A (clamped at the oldest
entry); previous from the live buffer jumps to the newest entry and
otherwise steps one older; next steps one newer and, past the newest
entry, resets the cursor to live and empties the buffer. -/
theorem history_navigation_spec :
    (∀ a : App, a.history ≠ [] → a.history_index = none →
      (history_prev a).history_index = some (a.history.length - 1) ∧
      (history_prev a).editor
        = (set_editor_text a (a.history.getD (a.history.length - 1) "")).editor) ∧
    (∀ (a : App) (i : Nat), a.history ≠ [] → a.history_index = some i →
      (history_prev a).history_index = some (i - 1) ∧
      (history_prev a).editor
        = (set_editor_text a (a.history.getD (i - 1) "")).editor) ∧
    (∀ (a : App) (i : Nat), a.history_index = some i → i + 1 < a.history.length →
      (history_next a).history_index = some (i + 1) ∧
      (history_next a).editor
        = (set_editor_text a (a.history.getD (i + 1) "")).editor) ∧
    (∀ (a : App) (i : Nat), a.history_index = some i → ¬ i + 1 < a.history.length →
      (history_next a).history_index = none ∧
      get_editor_text (history_next a) = "") ∧
    get_editor_text (history_prev demo_after_pushes) = "C" ∧
    get_editor_text (history_prev (history_prev demo_after_pushes)) = "B" ∧
    get_editor_text (history_prev (history_prev (history_prev demo_after_pushes))) = "A" ∧
    get_editor_text (history_prev (history_prev (history_prev
      (history_prev demo_after_pushes)))) = "A" ∧
    (history_prev (history_prev (history_prev
      (history_prev demo_after_pushes)))).history_index = some 0 := by
  refine ⟨?_, ?_, ?_, ?_, by decide, by decide, by decide, by decide, by decide⟩
  · intro a h hidx
    simp [history_prev, List.isEmpty_iff, h, hidx, set_editor_text]
  · intro a i h hidx
    simp [history_prev, List.isEmpty_iff, h, hidx, set_editor_text]
  · intro a i hidx hlt
    simp [history_next, hidx, hlt, set_editor_text]
  · intro a i hidx hlt
    simp [history_next, hidx, hlt, clear_editor, get_editor_text]
    decide

/-- Witness for C9: previous from the live buffer of the concrete session
jumps to the newest entry. -/
theorem history_navigation_spec_witness :
    (history_prev demo_after_pushes).history_index = some 2 := by
  have h := (history_navigation_spec.1 demo_after_pushes (by decide) (by decide)).1
  rw [h]
  decide

/-- C3 counterexample: from the initial state, submitting a statement that
returns two result sets, navigating to the second, and submitting a
statement that returns one result set leaves `current_result_set` equal to
`result_sets.len()`, so the claimed reachability invariant is false. -/
theorem result_index_clamp_refuted :
    ¬ (∀ ops : List SessionOp,
        result_index_clamped (run_session ops demo_session)) := by
  intro h
  have hbad := h
    [.setEditor "SELECT 1",
     .submit (.ok ⟨[⟨["c"], [["1"]]⟩, ⟨["c"], [["1"]]⟩], 0, none⟩),
     .nextSet,
     .submit (.ok ⟨[⟨["c"], [["1"]]⟩], 0, none⟩)]
  exact absurd hbad (by decide)

/-- C3 amended: every modeled session operation other than a statement
submission preserves the clamp (result-set navigation stays strictly
below the count, scrolling and editing do not touch the index or the
result model); a submission replaces `result_sets` without resetting
`current_result_set` and can therefore break it, as the counterexample
shows. -/
theorem result_index_preserved_without_submit (a : App) (op : SessionOp)
    (hop : op.is_submit = false) (hinv : result_index_clamped a) :
    result_index_clamped (session_step a op) := by
  unfold result_index_clamped at *
  cases op with
  | nextSet =>
      simp only [session_step, next_result_set]
      split_ifs with h
      · intro _
        simpa using h
      · exact hinv
  | prevSet =>
      simp only [session_step, prev_result_set]
      split_ifs with h
      · intro hne
        have h2 := hinv hne
        simp only []
        omega
      · exact hinv
  | resultsDown =>
      simp only [session_step, scroll_results_down]
      split_ifs <;> exact hinv
  | resultsUp => exact hinv
  | resultsLeft => exact hinv
  | resultsRight =>
      simp only [session_step, scroll_results_right]
      split_ifs <;> exact hinv
  | sidebarDown => exact hinv
  | sidebarUp => exact hinv
  | setEditor text => exact hinv
  | submit outcome => simp [SessionOp.is_submit] at hop

/-- Witness for C3's amended theorem: navigating forward from the initial
state keeps the clamp. -/
theorem result_index_preserved_without_submit_witness :
    result_index_clamped (session_step demo_session .nextSet) :=
  result_index_preserved_without_submit demo_session .nextSet (by decide) (by decide)

/-- Structural induction over forests of `ObjectNode`: a property closed
under nil and under cons (given for the children and for the tail) holds
for every forest. -/
theorem forest_rec (P : List ObjectNode → Prop) (h0 : P [])
    (h1 : ∀ nm d e c rest, P c → P rest → P (ObjectNode.mk nm d e c :: rest)) :
    ∀ ns, P ns := by
  have key : ∀ k ns, sizeOf ns ≤ k → P ns := by
    intro k
    induction k with
    | zero =>
        intro ns h
        cases ns with
        | nil => exact h0
        | cons n rest =>
            exfalso
            simp only [List.cons.sizeOf_spec] at h
            omega
    | succ k ih =>
        intro ns h
        cases ns with
        | nil => exact h0
        | cons n rest =>
            cases n with
            | mk nm d e c =>
                simp only [List.cons.sizeOf_spec, ObjectNode.mk.sizeOf_spec] at h
                exact h1 nm d e c rest (ih c (by omega)) (ih rest (by omega))
  intro ns
  exact key (sizeOf ns) ns (Nat.le_refl _)

/-- The flatten equation on a cons cell. -/
theorem flatten_tree_cons (nm : String) (d : Nat) (e : Bool) (c rest : List ObjectNode) :
    flatten_tree (ObjectNode.mk nm d e c :: rest)
      = (d, nm, e, !c.isEmpty) :: ((if e then flatten_tree c else []) ++ flatten_tree rest) := by
  simp [flatten_tree]

/-- The toggle traversal on a cons cell. -/
theorem get_flat_node_toggle_cons (nm : String) (d : Nat) (e : Bool)
    (c rest : List ObjectNode) (target idx : Nat) :
    get_flat_node_toggle (ObjectNode.mk nm d e c :: rest) target idx
      = if idx = target then (ObjectNode.mk nm d (!e) c :: rest, idx, true)
        else
          let r1 := if e then get_flat_node_toggle c target (idx + 1) else (c, idx + 1, false)
          if r1.2.2 then (ObjectNode.mk nm d e r1.1 :: rest, r1.2.1, true)
          else
            let r2 := get_flat_node_toggle rest target r1.2.1
            (ObjectNode.mk nm d e c :: r2.1, r2.2.1, r2.2.2) := by
  simp [get_flat_node_toggle]

/-- When the target lies outside the forest's visible range starting at
`idx`, the traversal changes nothing, advances the counter by the number
of visible entries, and reports not found. -/
theorem toggle_miss :
    ∀ ns : List ObjectNode, ∀ target idx : Nat,
      (target < idx ∨ idx + (flatten_tree ns).length ≤ target) →
      get_flat_node_toggle ns target idx = (ns, idx + (flatten_tree ns).length, false) := by
  refine forest_rec _ ?_ ?_
  · intro target idx _
    simp [get_flat_node_toggle, flatten_tree]
  · intro nm d e c rest ihc ihr target idx h
    have hlen : (flatten_tree (ObjectNode.mk nm d e c :: rest)).length
        = 1 + (if e then (flatten_tree c).length else 0) + (flatten_tree rest).length := by
      rw [flatten_tree_cons]
      cases e <;> simp <;> omega
    have hne : idx ≠ target := by
      rw [hlen] at h
      omega
    rw [get_flat_node_toggle_cons, if_neg hne]
    cases e with
    | false =>
        have hr := ihr target (idx + 1) (by rw [hlen] at h; simp at h ⊢; omega)
        simp only [Bool.false_eq_true, if_false, hr, hlen]
        simp
        omega
    | true =>
        have hc := ihc target (idx + 1) (by rw [hlen] at h; simp at h ⊢; omega)
        have hr := ihr target (idx + 1 + (flatten_tree c).length)
          (by rw [hlen] at h; simp at h ⊢; omega)
        simp only [if_true, hc, hr, hlen]
        simp
        omega

/-- The path lookup on a cons cell. -/
theorem path_at_cons (nm : String) (d : Nat) (e : Bool) (c rest : List ObjectNode) (k : Nat) :
    path_at (ObjectNode.mk nm d e c :: rest) k
      = if k = 0 then some [0]
        else if k - 1 < (if e then (flatten_tree c).length else 0) then
          (path_at c (k - 1)).map fun p => 0 :: p
        else
          (path_at rest (k - 1 - (if e then (flatten_tree c).length else 0))).map bump_head := by
  simp [path_at]

/-- A path returned by `path_at` is never empty. -/
theorem path_at_ne_nil :
    ∀ ns : List ObjectNode, ∀ (k : Nat) (p : List Nat), path_at ns k = some p → p ≠ [] := by
  refine forest_rec _ ?_ ?_
  · intro k p h
    simp [path_at] at h
  · intro nm d e c rest ihc ihr k p h
    rw [path_at_cons] at h
    by_cases hk : k = 0
    · rw [if_pos hk] at h
      cases h
      simp
    · rw [if_neg hk] at h
      by_cases hlt : k - 1 < (if e then (flatten_tree c).length else 0)
      · rw [if_pos hlt] at h
        rw [Option.map_eq_some'] at h
        obtain ⟨p', _, rfl⟩ := h
        simp
      · rw [if_neg hlt] at h
        rw [Option.map_eq_some'] at h
        obtain ⟨p', hp', rfl⟩ := h
        have := ihr _ _ hp'
        cases p' with
        | nil => exact absurd rfl this
        | cons j q => simp [bump_head]

/-- When the target lies inside the forest's visible range starting at
`idx`, the traversal returns the forest with the `expanded` flag flipped at
exactly the path of the (target - idx)-th visible entry, the counter at the
target, and found. -/
theorem toggle_hit :
    ∀ ns : List ObjectNode, ∀ target idx : Nat,
      idx ≤ target → target - idx < (flatten_tree ns).length →
      ∃ p, path_at ns (target - idx) = some p ∧
        get_flat_node_toggle ns target idx = (modify_at ns p, target, true) := by
  refine forest_rec _ ?_ ?_
  · intro target idx _ hlt
    simp [flatten_tree] at hlt
  · intro nm d e c rest ihc ihr target idx hle hlt
    have hlen : (flatten_tree (ObjectNode.mk nm d e c :: rest)).length
        = 1 + (if e then (flatten_tree c).length else 0) + (flatten_tree rest).length := by
      rw [flatten_tree_cons]; cases e <;> simp <;> omega
    rw [hlen] at hlt
    by_cases hk0 : target = idx
    · refine ⟨[0], ?_, ?_⟩
      · rw [path_at_cons, if_pos (by omega)]
      · rw [get_flat_node_toggle_cons, if_pos hk0.symm]
        simp [modify_at, flip_expanded, hk0]
    · by_cases hin : target - idx - 1 < (if e then (flatten_tree c).length else 0)
      · cases e with
        | false => simp at hin
        | true =>
            simp only [if_true] at hin
            obtain ⟨p', hp', ht'⟩ := ihc target (idx + 1) (by omega) (by omega)
            have hp'ne := path_at_ne_nil c _ _ hp'
            refine ⟨0 :: p', ?_, ?_⟩
            · rw [path_at_cons, if_neg (by omega : ¬ target - idx = 0)]
              simp only [if_true]
              rw [if_pos (by omega : target - idx - 1 < (flatten_tree c).length)]
              rw [show target - idx - 1 = target - (idx + 1) from by omega, hp']
              rfl
            · rw [get_flat_node_toggle_cons, if_neg (by omega : ¬ idx = target)]
              simp only [if_true]
              rw [show target - (idx + 1) = target - idx - 1 from rfl] at hp'
              simp only [ht']
              have hcons : modify_at (ObjectNode.mk nm d true c :: rest) (0 :: p')
                  = (ObjectNode.mk nm d true (modify_at c p')) :: rest := by
                cases p' with
                | nil => exact absurd rfl hp'ne
                | cons a b =>
                    simp [modify_at, ObjectNode.name, ObjectNode.depth,
                      ObjectNode.expanded, ObjectNode.children]
              rw [hcons]
              simp
      · cases e with
        | false =>
            simp only [Bool.false_eq_true, if_false] at hin hlt
            obtain ⟨p'', hp'', ht''⟩ := ihr target (idx + 1) (by omega) (by omega)
            have hp''ne := path_at_ne_nil rest _ _ hp''
            obtain ⟨j, q, rfl⟩ : ∃ j q, p'' = j :: q := by
              cases p'' with
              | nil => exact absurd rfl hp''ne
              | cons j q => exact ⟨j, q, rfl⟩
            refine ⟨bump_head (j :: q), ?_, ?_⟩
            · rw [path_at_cons, if_neg (by omega : ¬ target - idx = 0)]
              simp only [Bool.false_eq_true, if_false]
              rw [if_neg (by omega : ¬ target - idx - 1 < 0)]
              rw [show target - idx - 1 - 0 = target - (idx + 1) from by omega, hp'']
              rfl
            · rw [get_flat_node_toggle_cons, if_neg (by omega : ¬ idx = target)]
              simp only [Bool.false_eq_true, if_false, ht'']
              simp [bump_head, modify_at]
        | true =>
            simp only [if_true] at hin hlt
            have hmiss := toggle_miss c target (idx + 1) (Or.inr (by omega))
            obtain ⟨p'', hp'', ht''⟩ :=
              ihr target (idx + 1 + (flatten_tree c).length) (by omega) (by omega)
            have hp''ne := path_at_ne_nil rest _ _ hp''
            obtain ⟨j, q, rfl⟩ : ∃ j q, p'' = j :: q := by
              cases p'' with
              | nil => exact absurd rfl hp''ne
              | cons j q => exact ⟨j, q, rfl⟩
            refine ⟨bump_head (j :: q), ?_, ?_⟩
            · rw [path_at_cons, if_neg (by omega : ¬ target - idx = 0)]
              simp only [if_true]
              rw [if_neg (by omega : ¬ target - idx - 1 < (flatten_tree c).length)]
              rw [show target - idx - 1 - (flatten_tree c).length
                    = target - (idx + 1 + (flatten_tree c).length) from by omega, hp'']
              rfl
            · rw [get_flat_node_toggle_cons, if_neg (by omega : ¬ idx = target)]
              simp only [if_true, hmiss, ht'']
              simp [bump_head, modify_at]

/-- Each visible flat index corresponds through its path to a node whose
shallow description is the flatten entry at that index. -/
theorem path_at_entry :
    ∀ ns : List ObjectNode, ∀ k : Nat, k < (flatten_tree ns).length →
      ∃ p nd, path_at ns k = some p ∧ node_at ns p = some nd ∧
        (flatten_tree ns)[k]? = some (entry_of nd) := by
  refine forest_rec _ ?_ ?_
  · intro k h
    simp [flatten_tree] at h
  · intro nm d e c rest ihc ihr k hlt
    have hlen : (flatten_tree (ObjectNode.mk nm d e c :: rest)).length
        = 1 + (if e then (flatten_tree c).length else 0) + (flatten_tree rest).length := by
      rw [flatten_tree_cons]; cases e <;> simp <;> omega
    rw [hlen] at hlt
    by_cases hk : k = 0
    · subst hk
      refine ⟨[0], ObjectNode.mk nm d e c, ?_, ?_, ?_⟩
      · rw [path_at_cons]
        simp
      · simp [node_at]
      · rw [flatten_tree_cons]
        simp [entry_of, ObjectNode.depth, ObjectNode.name, ObjectNode.expanded,
          ObjectNode.children]
    · obtain ⟨k', rfl⟩ : ∃ k', k = k' + 1 := ⟨k - 1, by omega⟩
      by_cases hin : k' < (if e then (flatten_tree c).length else 0)
      · cases e with
        | false => simp at hin
        | true =>
            simp only [if_true] at hin hlt
            obtain ⟨p', nd, hp', hn', hf'⟩ := ihc k' hin
            have hp'ne := path_at_ne_nil c _ _ hp'
            obtain ⟨a, b, rfl⟩ : ∃ a b, p' = a :: b := by
              cases p' with
              | nil => exact absurd rfl hp'ne
              | cons a b => exact ⟨a, b, rfl⟩
            refine ⟨0 :: a :: b, nd, ?_, ?_, ?_⟩
            · rw [path_at_cons, if_neg (Nat.succ_ne_zero k')]
              simp only [if_true, Nat.add_sub_cancel]
              rw [if_pos hin, hp']
              rfl
            · rw [show node_at (ObjectNode.mk nm d true c :: rest) (0 :: a :: b)
                    = node_at c (a :: b) from by simp [node_at, ObjectNode.children]]
              exact hn'
            · rw [flatten_tree_cons]
              simp only [if_true, List.getElem?_cons_succ]
              rw [List.getElem?_append_left hin]
              exact hf'
      · cases e with
        | false =>
            simp only [Bool.false_eq_true, if_false] at hin hlt
            obtain ⟨p'', nd, hp'', hn'', hf''⟩ := ihr k' (by omega)
            have hp''ne := path_at_ne_nil rest _ _ hp''
            obtain ⟨j, q, rfl⟩ : ∃ j q, p'' = j :: q := by
              cases p'' with
              | nil => exact absurd rfl hp''ne
              | cons j q => exact ⟨j, q, rfl⟩
            refine ⟨bump_head (j :: q), nd, ?_, ?_, ?_⟩
            · rw [path_at_cons, if_neg (Nat.succ_ne_zero k')]
              simp only [Bool.false_eq_true, if_false, Nat.add_sub_cancel]
              rw [if_neg (by omega : ¬ k' < 0)]
              rw [show k' - 0 = k' from rfl, hp'']
              rfl
            · rw [show bump_head (j :: q) = (j + 1) :: q from rfl]
              rw [show node_at (ObjectNode.mk nm d false c :: rest) ((j + 1) :: q)
                    = node_at rest (j :: q) from by simp [node_at]]
              exact hn''
            · rw [flatten_tree_cons]
              simp only [Bool.false_eq_true, if_false, List.getElem?_cons_succ,
                List.nil_append]
              exact hf''
        | true =>
            simp only [if_true] at hin hlt
            obtain ⟨p'', nd, hp'', hn'', hf''⟩ := ihr (k' - (flatten_tree c).length) (by omega)
            have hp''ne := path_at_ne_nil rest _ _ hp''
            obtain ⟨j, q, rfl⟩ : ∃ j q, p'' = j :: q := by
              cases p'' with
              | nil => exact absurd rfl hp''ne
              | cons j q => exact ⟨j, q, rfl⟩
            refine ⟨bump_head (j :: q), nd, ?_, ?_, ?_⟩
            · rw [path_at_cons, if_neg (Nat.succ_ne_zero k')]
              simp only [if_true, Nat.add_sub_cancel]
              rw [if_neg hin, hp'']
              rfl
            · rw [show bump_head (j :: q) = (j + 1) :: q from rfl]
              rw [show node_at (ObjectNode.mk nm d true c :: rest) ((j + 1) :: q)
                    = node_at rest (j :: q) from by simp [node_at]]
              exact hn''
            · rw [flatten_tree_cons]
              simp only [if_true, List.getElem?_cons_succ]
              rw [List.getElem?_append_right (by omega)]
              exact hf''

/-- Flipping along a path changes the node at that path into its
`expanded`-negated copy. -/
theorem node_at_modify_self :
    ∀ ns : List ObjectNode, ∀ p : List Nat,
      node_at (modify_at ns p) p = (node_at ns p).map flip_expanded := by
  refine forest_rec _ ?_ ?_
  · intro p
    cases p with
    | nil => simp [modify_at, node_at]
    | cons i q => simp [modify_at, node_at]
  · intro nm d e c rest ihc ihr p
    cases p with
    | nil => simp [modify_at, node_at]
    | cons i q =>
        cases i with
        | zero =>
            cases q with
            | nil =>
                simp [modify_at, node_at, flip_expanded, ObjectNode.children]
            | cons a b =>
                rw [show modify_at (ObjectNode.mk nm d e c :: rest) (0 :: a :: b)
                      = ObjectNode.mk nm d e (modify_at c (a :: b)) :: rest from by
                    simp [modify_at, ObjectNode.name, ObjectNode.depth,
                      ObjectNode.expanded, ObjectNode.children]]
                rw [show node_at (ObjectNode.mk nm d e (modify_at c (a :: b)) :: rest)
                      (0 :: a :: b) = node_at (modify_at c (a :: b)) (a :: b) from by
                    simp [node_at, ObjectNode.children]]
                rw [show node_at (ObjectNode.mk nm d e c :: rest) (0 :: a :: b)
                      = node_at c (a :: b) from by simp [node_at, ObjectNode.children]]
                exact ihc (a :: b)
        | succ j =>
            rw [show modify_at (ObjectNode.mk nm d e c :: rest) ((j + 1) :: q)
                  = ObjectNode.mk nm d e c :: modify_at rest (j :: q) from by
                simp [modify_at]]
            rw [show node_at (ObjectNode.mk nm d e c :: modify_at rest (j :: q))
                  ((j + 1) :: q) = node_at (modify_at rest (j :: q)) (j :: q) from by
                simp [node_at]]
            rw [show node_at (ObjectNode.mk nm d e c :: rest) ((j + 1) :: q)
                  = node_at rest (j :: q) from by simp [node_at]]
            exact ihr (j :: q)

/-- Flipping along a path leaves the shallow fields (name, depth,
expanded flag) of the node at every other path unchanged. -/
theorem node_at_modify_other :
    ∀ ns : List ObjectNode, ∀ p q : List Nat, q ≠ p →
      (node_at (modify_at ns p) q).map shallow_of = (node_at ns q).map shallow_of := by
  refine forest_rec _ ?_ ?_
  · intro p q _
    cases p with
    | nil => simp [modify_at]
    | cons i p' =>
        cases q with
        | nil => simp [modify_at, node_at]
        | cons j q' => simp [modify_at, node_at]
  · intro nm d e c rest ihc ihr p q hne
    cases p with
    | nil => simp [modify_at]
    | cons i p' =>
        cases i with
        | zero =>
            cases p' with
            | nil =>
                rw [show modify_at (ObjectNode.mk nm d e c :: rest) [0]
                      = flip_expanded (ObjectNode.mk nm d e c) :: rest from by
                    simp [modify_at]]
                cases q with
                | nil => simp [node_at]
                | cons j q' =>
                    cases j with
                    | zero =>
                        cases q' with
                        | nil => exact absurd rfl hne
                        | cons a b =>
                            rw [show node_at
                                  (flip_expanded (ObjectNode.mk nm d e c) :: rest)
                                  (0 :: a :: b) = node_at c (a :: b) from by
                                simp [node_at, flip_expanded, ObjectNode.children]]
                            rw [show node_at (ObjectNode.mk nm d e c :: rest)
                                  (0 :: a :: b) = node_at c (a :: b) from by
                                simp [node_at, ObjectNode.children]]
                    | succ j' =>
                        rw [show node_at
                              (flip_expanded (ObjectNode.mk nm d e c) :: rest)
                              ((j' + 1) :: q') = node_at rest (j' :: q') from by
                            simp [node_at]]
                        rw [show node_at (ObjectNode.mk nm d e c :: rest)
                              ((j' + 1) :: q') = node_at rest (j' :: q') from by
                            simp [node_at]]
            | cons a b =>
                rw [show modify_at (ObjectNode.mk nm d e c :: rest) (0 :: a :: b)
                      = ObjectNode.mk nm d e (modify_at c (a :: b)) :: rest from by
                    simp [modify_at, ObjectNode.name, ObjectNode.depth,
                      ObjectNode.expanded, ObjectNode.children]]
                cases q with
                | nil => simp [node_at]
                | cons j q' =>
                    cases j with
                    | zero =>
                        cases q' with
                        | nil =>
                            rw [show node_at
                                  (ObjectNode.mk nm d e (modify_at c (a :: b)) :: rest)
                                  [0] = some (ObjectNode.mk nm d e (modify_at c (a :: b)))
                                  from by simp [node_at]]
                            rw [show node_at (ObjectNode.mk nm d e c :: rest) [0]
                                  = some (ObjectNode.mk nm d e c) from by simp [node_at]]
                            simp [shallow_of, ObjectNode.name, ObjectNode.depth,
                              ObjectNode.expanded]
                        | cons x y =>
                            rw [show node_at
                                  (ObjectNode.mk nm d e (modify_at c (a :: b)) :: rest)
                                  (0 :: x :: y) = node_at (modify_at c (a :: b)) (x :: y)
                                  from by simp [node_at, ObjectNode.children]]
                            rw [show node_at (ObjectNode.mk nm d e c :: rest)
                                  (0 :: x :: y) = node_at c (x :: y) from by
                                simp [node_at, ObjectNode.children]]
                            exact ihc (a :: b) (x :: y) (by
                              intro hxy
                              exact hne (by rw [hxy]))
                    | succ j' =>
                        rw [show node_at
                              (ObjectNode.mk nm d e (modify_at c (a :: b)) :: rest)
                              ((j' + 1) :: q') = node_at rest (j' :: q') from by
                            simp [node_at]]
                        rw [show node_at (ObjectNode.mk nm d e c :: rest)
                              ((j' + 1) :: q') = node_at rest (j' :: q') from by
                            simp [node_at]]
        | succ i' =>
            rw [show modify_at (ObjectNode.mk nm d e c :: rest) ((i' + 1) :: p')
                  = ObjectNode.mk nm d e c :: modify_at rest (i' :: p') from by
                simp [modify_at]]
            cases q with
            | nil => simp [node_at]
            | cons j q' =>
                cases j with
                | zero =>
                    cases q' with
                    | nil =>
                        rw [show node_at
                              (ObjectNode.mk nm d e c :: modify_at rest (i' :: p')) [0]
                              = some (ObjectNode.mk nm d e c) from by simp [node_at]]
                        rw [show node_at (ObjectNode.mk nm d e c :: rest) [0]
                              = some (ObjectNode.mk nm d e c) from by simp [node_at]]
                    | cons x y =>
                        rw [show node_at
                              (ObjectNode.mk nm d e c :: modify_at rest (i' :: p'))
                              (0 :: x :: y) = node_at c (x :: y) from by
                            simp [node_at, ObjectNode.children]]
                        rw [show node_at (ObjectNode.mk nm d e c :: rest)
                              (0 :: x :: y) = node_at c (x :: y) from by
                            simp [node_at, ObjectNode.children]]
                | succ j' =>
                    rw [show node_at
                          (ObjectNode.mk nm d e c :: modify_at rest (i' :: p'))
                          ((j' + 1) :: q') = node_at (modify_at rest (i' :: p')) (j' :: q')
                          from by simp [node_at]]
                    rw [show node_at (ObjectNode.mk nm d e c :: rest)
                          ((j' + 1) :: q') = node_at rest (j' :: q') from by
                        simp [node_at]]
                    exact ihr (i' :: p') (j' :: q') (by
                      intro hxy
                      exact hne (by
                        injection hxy with h1 h2
                        rw [h1, h2]))

/-- C1: for every tree and flat index n below the flatten length, toggling
at n flips the `expanded` flag of exactly the node whose path is that of
the n-th flatten entry - the node's fields describe that entry, the
toggled tree is the path-precise modification, the node at that path has
its flag negated, and the shallow fields of every node at any other path
are unchanged; on the one-collapsed-node demo tree, flatten yields one
entry, toggling index 0 yields two entries with the second at depth 1, and
toggling again restores one entry. -/
theorem toggle_matches_flatten :
    (∀ (ns : List ObjectNode) (n : Nat), n < (flatten_tree ns).length →
      ∃ (p : List Nat) (nd : ObjectNode),
        path_at ns n = some p ∧
        node_at ns p = some nd ∧
        (flatten_tree ns)[n]? = some (entry_of nd) ∧
        toggle_sidebar_node ns n = modify_at ns p ∧
        node_at (toggle_sidebar_node ns n) p = some (flip_expanded nd) ∧
        (∀ q : List Nat, q ≠ p →
          (node_at (toggle_sidebar_node ns n) q).map shallow_of
            = (node_at ns q).map shallow_of)) ∧
    flatten_tree demo_tree = [(0, "db", false, true)] ∧
    flatten_tree (toggle_sidebar_node demo_tree 0)
      = [(0, "db", true, true), (1, "schema", false, false)] ∧
    flatten_tree (toggle_sidebar_node (toggle_sidebar_node demo_tree 0) 0)
      = [(0, "db", false, true)] := by
  refine ⟨?_, ?_, ?_, ?_⟩
  · intro ns n hn
    obtain ⟨p, hp, htog⟩ := toggle_hit ns n 0 (Nat.zero_le n) (by simpa using hn)
    obtain ⟨p2, nd, hp2, hnode, hflat⟩ := path_at_entry ns n hn
    rw [show n - 0 = n from rfl] at hp
    have hpp : p2 = p := by
      rw [hp] at hp2
      exact (Option.some_inj.mp hp2).symm
    subst hpp
    have htg : toggle_sidebar_node ns n = modify_at ns p2 := by
      unfold toggle_sidebar_node
      rw [htog]
    refine ⟨p2, nd, hp, hnode, hflat, htg, ?_, ?_⟩
    · rw [htg, node_at_modify_self, hnode]
      rfl
    · intro q hq
      rw [htg]
      exact node_at_modify_other ns p2 q hq
  · simp [demo_tree, flatten_tree]
  · simp [demo_tree, toggle_sidebar_node, get_flat_node_toggle, flatten_tree]
  · simp [demo_tree, toggle_sidebar_node, get_flat_node_toggle, flatten_tree]

/-- Witness for C1 at the demo tree and flat index 0. -/
theorem toggle_matches_flatten_witness :
    ∃ (p : List Nat) (nd : ObjectNode),
      path_at demo_tree 0 = some p ∧
      node_at demo_tree p = some nd ∧
      (flatten_tree demo_tree)[0]? = some (entry_of nd) ∧
      toggle_sidebar_node demo_tree 0 = modify_at demo_tree p ∧
      node_at (toggle_sidebar_node demo_tree 0) p = some (flip_expanded nd) ∧
      (∀ q : List Nat, q ≠ p →
        (node_at (toggle_sidebar_node demo_tree 0) q).map shallow_of
          = (node_at demo_tree q).map shallow_of) :=
  toggle_matches_flatten.1 demo_tree 0 (by simp [demo_tree, flatten_tree])

end Meow
